import Mathlib

/-!
Shallow embedding of the consensus core of `src/node/src/core.rs` (a
HotStuff-style BFT core with a 3-chain commit rule and pacemaker timeouts).

The core task owns the mutable state `round`, `last_voted_round`,
`preferred_round`, `highest_qc`, the block store, and the vote aggregator.
External collaborators (leader elector, mempool, synchronizer, signature
service, aggregator behaviour) are black boxes behind narrow interfaces; they
are modelled as oracle functions collected in an `Env` record.  Each handler
becomes a pure function from the current state to a new state, a trace of
observable events (store writes, timer operations, commits, outbound
messages) in occurrence order, and an optional consensus error.
-/

namespace Jolteon

/- Round numbers (`u64` in the source), public keys and digests are all
modelled as `Nat` (`Nat` is kept bare so that arithmetic automation sees
through the types; digests and keys are opaque to the core). -/

/-- Quorum certificate: `{ hash, round, votes }` (messages.rs data model,
as described by the spec's data-model section). -/
structure QC where
  hash : Nat
  round : Nat
  votes : List Nat
  deriving DecidableEq

/-- Modelled from the spec: `QC::genesis()`, the distinguished certificate
over the genesis block (round 0, all-zero digest), with an empty vote set
(messages.rs is not under src). -/
def QC.genesis : QC := { hash := 0, round := 0, votes := [] }

/-- Timeout certificate: `{ round, votes }`. -/
structure TC where
  round : Nat
  votes : List Nat
  deriving DecidableEq

/-- A block: `{ author, round, qc, tc, payload, signature }`. -/
structure Block where
  author : Nat
  round : Nat
  qc : QC
  tc : Option TC
  payload : List Nat
  signature : Nat
  deriving DecidableEq

/-- A vote.  `timeoutFlag` models `Vote::timeout()` (block-vote vs
timeout-vote kind). -/
structure Vote where
  hash : Nat
  round : Nat
  author : Nat
  signature : Nat
  timeoutFlag : Bool
  deriving DecidableEq

/-- The `ConsensusError` variants reachable from the embedded handlers. -/
inductive ConsensusError where
  | MalformedBlock (digest : Nat)
  | WrongLeader (digest : Nat) (leader : Nat) (round : Nat)
  | InvalidSignature
  | InvalidQC
  | InvalidTC
  | SyncError
  | AggregatorError
  deriving DecidableEq

/-- Observable events of one handler invocation, in occurrence order.
`StoreWrite` is a store write keyed by a digest, `RoundUpdate` marks the
assignment to `self.round`, the vote/block events are the outbound
loopback/network messages, `Commit` is a send on the commit channel, and
`SyncReply` is the unicast reply of `handle_sync_request`. -/
inductive Event where
  | StoreWrite (key : Nat)
  | TimerCancel (round : Nat)
  | RoundUpdate (round : Nat)
  | AggregatorCleanup (round : Nat)
  | TimerSchedule (round : Nat)
  | Commit (b : Block)
  | VoteLoopback (v : Vote)
  | VoteNet (v : Vote) (dest : Nat)
  | BlockLoopback (b : Block)
  | BlockNet (b : Block)
  | SyncReply (b : Block) (dest : Nat)
  deriving DecidableEq

/-- The mutable consensus state owned by the core task.  The store is the
content-addressed map `digest → block` (most recent write first); the
aggregator is kept as its list of accumulated votes, transformed only through
the `Env` oracles. -/
structure CoreState where
  round : Nat
  last_voted_round : Nat
  preferred_round : Nat
  highest_qc : QC
  store : List (Nat × Block)
  aggregator : List Vote
  deriving DecidableEq

/-- Oracles for the black-box collaborators of the core (leader elector,
mempool, synchronizer, signature service and verification, aggregator), plus
this replica's identity.  `getAncestors` returns `Except.error` when the
synchronizer fails, `Except.ok none` when ancestors are missing (fetch in
progress), and `Except.ok (some (b0, b1, b2))` when all three resolve. -/
structure Env where
  name : Nat
  leader : Nat → Nat
  mempoolReady : List Nat → Bool
  getPayload : List Nat
  getAncestors : Block → Except Unit (Option (Block × Block × Block))
  sigVerify : Block → Bool
  qcVerify : QC → Bool
  tcVerify : TC → Bool
  digest : Block → Nat
  voteSig : Nat → Nat → Nat
  blockSig : Nat → Nat
  addVote : List Vote → Vote → List Vote × Except Unit (Option (List Nat))
  aggCleanup : List Vote → Nat → List Vote

/-- Embeds `Core::store_block`: write `(digest → block)` to the store. -/
def store_block (e : Env) (s : CoreState) (b : Block) : CoreState × List Event :=
  ({ s with store := (e.digest b, b) :: s.store }, [Event.StoreWrite (e.digest b)])

/-- The round a block certifies entering (`process_block` lines 231-234):
`tc.round + 1` when a TC is present, else `qc.round + 1`. -/
def possibleNewRound (b : Block) : Nat :=
  match b.tc with
  | some tc => tc.round + 1
  | none => b.qc.round + 1

/-- The round-advancement step of `process_block` (lines 235-247): when
`round < possible`, cancel the old round's timer, set `round`, clean the
aggregator for the new round, and schedule a new timer. -/
def roundAdvance (e : Env) (s : CoreState) (possible : Nat) :
    CoreState × List Event :=
  if s.round < possible then
    ({ s with round := possible, aggregator := e.aggCleanup s.aggregator possible },
     [Event.TimerCancel s.round, Event.RoundUpdate possible,
      Event.AggregatorCleanup possible, Event.TimerSchedule possible])
  else (s, [])

/-- The highest-QC tracking step of `process_block` (lines 250-252). -/
def updateHighestQC (s : CoreState) (qc : QC) : CoreState :=
  if qc.round > s.highest_qc.round then { s with highest_qc := qc } else s

/-- The 3-chain commit step of `process_block` (lines 254-264): emit `b0` on
the commit channel exactly when the three round equalities hold. -/
def commitEvents (b0 b1 b2 b : Block) : List Event :=
  if b0.round + 1 = b1.round ∧ b1.round + 1 = b2.round ∧ b2.round + 1 = b.round
  then [Event.Commit b0] else []

/-- Modelled from the spec: `Vote::new(&block, name, ..)` of messages.rs (not
under src) builds the block-vote `{ hash = digest(b), round = b.round }`
signed by this replica. -/
def mkBlockVote (e : Env) (b : Block) : Vote :=
  { hash := e.digest b, round := b.round, author := e.name,
    signature := e.voteSig (e.digest b) b.round, timeoutFlag := false }

/-- The safety-rule voting step of `process_block` (lines 268-290): vote iff
`b2.round ≥ preferred_round` and `b.round > last_voted_round`; deliver the
vote to the next round's leader (loopback if self), then raise
`preferred_round` to `b1.round` and set `last_voted_round` to `b.round`. -/
def tryVote (e : Env) (s : CoreState) (b b1 b2 : Block) : CoreState × List Event :=
  if b2.round ≥ s.preferred_round ∧ b.round > s.last_voted_round then
    let vote := mkBlockVote e b
    let next_leader := e.leader (s.round + 1)
    ({ s with preferred_round := max s.preferred_round b1.round,
              last_voted_round := b.round },
     [if next_leader = e.name then Event.VoteLoopback vote
      else Event.VoteNet vote next_leader])
  else (s, [])

/-- Embeds `Core::process_block` (lines 209-293): payload availability, ancestor
resolution, durability, round advancement, highest-QC tracking, 3-chain
commit, safety-rule voting, in source order. -/
def process_block (e : Env) (s : CoreState) (b : Block) :
    CoreState × List Event × Option ConsensusError :=
  if e.mempoolReady b.payload = false then (s, [], none)
  else
    match e.getAncestors b with
    | Except.error _ => (s, [], some ConsensusError.SyncError)
    | Except.ok none => (s, [], none)
    | Except.ok (some (b0, b1, b2)) =>
      let p1 := store_block e s b
      let p2 := roundAdvance e p1.1 (possibleNewRound b)
      let s3 := updateHighestQC p2.1 b.qc
      let p4 := tryVote e s3 b b1 b2
      (p4.1, p1.2 ++ p2.2 ++ commitEvents b0 b1 b2 b ++ p4.2, none)

/-- The round-consistency check of `handle_propose` (lines 176-179):
`b.round == tc.round + 1` when a TC is present, else
`b.round == qc.round + 1`. -/
def roundConsistentB (b : Block) : Bool :=
  match b.tc with
  | some tc => b.round == tc.round + 1
  | none => b.round == b.qc.round + 1

/-- Embeds `Core::handle_propose` (lines 168-207): freshness drop, round
consistency, leader authorship, block signature, embedded QC, embedded TC,
then `process_block`. -/
def handle_propose (e : Env) (s : CoreState) (b : Block) :
    CoreState × List Event × Option ConsensusError :=
  if b.round ≤ s.round then (s, [], none)
  else if roundConsistentB b = false then
    (s, [], some (ConsensusError.MalformedBlock (e.digest b)))
  else if b.author ≠ e.leader b.round then
    (s, [], some (ConsensusError.WrongLeader (e.digest b) b.author b.round))
  else if e.sigVerify b = false then (s, [], some ConsensusError.InvalidSignature)
  else if b.qc ≠ QC.genesis ∧ e.qcVerify b.qc = false then
    (s, [], some ConsensusError.InvalidQC)
  else
    match b.tc with
    | some tc =>
      if e.tcVerify tc = false then (s, [], some ConsensusError.InvalidTC)
      else process_block e s b
    | none => process_block e s b

/-- Modelled from the spec: `Vote::new_timeout(round, name, ..)` of
messages.rs (not under src) builds the timeout-vote for `round` with the
distinguished timeout marker as hash. -/
def mkTimeoutVote (e : Env) (r : Nat) : Vote :=
  { hash := 0, round := r, author := e.name,
    signature := e.voteSig 0 r, timeoutFlag := true }

/-- Embeds `Core::make_timeout` (lines 325-343): increment the round, sign a
timeout-vote for the new round, deliver it to the next round's leader
(loopback if self), and schedule a fresh timer. -/
def make_timeout (e : Env) (s : CoreState) : CoreState × List Event :=
  ({ s with round := s.round + 1 },
   [(if e.leader (s.round + 1 + 1) = e.name then
       Event.VoteLoopback (mkTimeoutVote e (s.round + 1))
     else
       Event.VoteNet (mkTimeoutVote e (s.round + 1)) (e.leader (s.round + 1 + 1))),
    Event.TimerSchedule (s.round + 1)])

/-- Embeds `Core::make_block` (lines 142-166): build a block from the mempool
payload, loop it back, and broadcast it; the core state is unchanged. -/
def make_block (e : Env) (s : CoreState) (qc : QC) (tc : Option TC)
    (round : Nat) : CoreState × List Event :=
  let b : Block := { author := e.name, round := round, qc := qc, tc := tc,
                     payload := e.getPayload, signature := e.blockSig round }
  (s, [Event.BlockLoopback b, Event.BlockNet b])

/-- Embeds `Core::handle_vote` (lines 295-323): drop stale votes, feed the
aggregator, and on quorum (if this replica leads the next round) form a QC
or TC and propose. -/
def handle_vote (e : Env) (s : CoreState) (v : Vote) :
    CoreState × List Event × Option ConsensusError :=
  if v.round < s.round then (s, [], none)
  else
    let res := e.addVote s.aggregator v
    let s1 := { s with aggregator := res.1 }
    match res.2 with
    | Except.error _ => (s1, [], some ConsensusError.AggregatorError)
    | Except.ok none => (s1, [], none)
    | Except.ok (some quorum) =>
      if e.name = e.leader (v.round + 1) then
        if v.timeoutFlag then
          let p := make_block e s1 s1.highest_qc
            (some { round := v.round, votes := quorum }) (v.round + 1)
          (p.1, p.2, none)
        else
          let p := make_block e s1
            { hash := v.hash, round := v.round, votes := quorum } none (v.round + 1)
          (p.1, p.2, none)
      else (s1, [], none)

/-- Read of the content-addressed store: the most recent write wins. -/
def storeRead (store : List (Nat × Block)) (d : Nat) : Option Block :=
  match store.find? (fun p => p.1 == d) with
  | some p => some p.2
  | none => none

/-- Embeds `Core::handle_sync_request` (lines 345-358): read the store; on a hit
send one `SyncReply` unicast to the requester, on a miss do nothing. -/
def handle_sync_request (e : Env) (s : CoreState) (d : Nat)
    (sender : Nat) : CoreState × List Event × Option ConsensusError :=
  match storeRead s.store d with
  | some b => (s, [Event.SyncReply b sender], none)
  | none => (s, [], none)

/-- The inputs the event loop (`Core::run`, lines 360-398) dispatches on:
the four `CoreMessage` variants plus a timer fire. -/
inductive Input where
  | Propose (b : Block)
  | VoteMsg (v : Vote)
  | LoopBack (b : Block)
  | SyncRequest (d : Nat) (sender : Nat)
  | TimerFire
  deriving DecidableEq

/-- One iteration of the event loop: dispatch an input to its handler
(errors are logged and dropped by the loop, so `step` keeps only the state
and the trace). -/
def step (e : Env) (s : CoreState) (i : Input) : CoreState × List Event :=
  match i with
  | Input.Propose b => ((handle_propose e s b).1, (handle_propose e s b).2.1)
  | Input.VoteMsg v => ((handle_vote e s v).1, (handle_vote e s v).2.1)
  | Input.LoopBack b => ((process_block e s b).1, (process_block e s b).2.1)
  | Input.SyncRequest d p =>
      ((handle_sync_request e s d p).1, (handle_sync_request e s d p).2.1)
  | Input.TimerFire => make_timeout e s

/-- The state installed by `Core::make` (lines 94-113): round 0, no votes
cast, genesis as the highest QC, empty store and aggregator. -/
def initState : CoreState :=
  { round := 0, last_voted_round := 0, preferred_round := 0,
    highest_qc := QC.genesis, store := [], aggregator := [] }

/-- Run the event loop from a state over a list of inputs, concatenating
the event traces in order. -/
def runFrom (e : Env) (s : CoreState) : List Input → CoreState × List Event
  | [] => (s, [])
  | i :: rest =>
    let p := step e s i
    let q := runFrom e p.1 rest
    (q.1, p.2 ++ q.2)

/-- Run the event loop from the boot state. -/
def run (e : Env) (inputs : List Input) : CoreState × List Event :=
  runFrom e initState inputs

/-- The vote carried by an outbound vote event, if any. -/
def voteOf : Event → Option Vote
  | Event.VoteLoopback v => some v
  | Event.VoteNet v _ => some v
  | _ => none

/-- Rounds of the emitted votes of the given kind (`true` for timeout-votes,
`false` for block-votes), in emission order. -/
def voteRounds (t : Bool) : List Event → List Nat
  | [] => []
  | ev :: rest =>
    match voteOf ev with
    | some v => if v.timeoutFlag = t then v.round :: voteRounds t rest
                else voteRounds t rest
    | none => voteRounds t rest

/-- Blocks emitted on the commit channel within a trace, in order. -/
def commitsOf (evs : List Event) : List Block :=
  evs.filterMap (fun ev => match ev with | Event.Commit b => some b | _ => none)

/-- The validation errors of `handle_propose` (as opposed to errors raised
by the collaborators reached from `process_block`). -/
def isValidationError : ConsensusError → Bool
  | ConsensusError.MalformedBlock _ => true
  | ConsensusError.WrongLeader _ _ _ => true
  | ConsensusError.InvalidSignature => true
  | ConsensusError.InvalidQC => true
  | ConsensusError.InvalidTC => true
  | _ => false

/-- The TC/QC round coherence condition on a block: when the block carries
a timeout certificate, the embedded QC's round does not exceed the TC's
round (always satisfied by certificates formed by honest quorums). -/
def tcBoundB (b : Block) : Bool :=
  match b.tc with
  | some tc => b.qc.round ≤ tc.round
  | none => true

/-- The predicate `tcBoundB` lifted to event-loop inputs (only block deliveries carry
blocks). -/
def inputTCBoundB : Input → Bool
  | Input.Propose b => tcBoundB b
  | Input.LoopBack b => tcBoundB b
  | _ => true

/-- The highest-QC/round invariant in the form the code maintains: at round
zero the highest QC is still at round zero, and once the round is positive
the highest QC's round lies strictly below the current round. -/
def qcInv (s : CoreState) : Prop :=
  (s.round = 0 → s.highest_qc.round = 0) ∧
  (0 < s.round → s.highest_qc.round < s.round)

/-- A concrete chain of blocks at rounds 0-3 (each block's QC certifies the
previous one) used to exercise the embedding on closed inputs. -/
def chain0 : Block :=
  { author := 0, round := 0, qc := QC.genesis, tc := none, payload := [],
    signature := 0 }

def chain1 : Block :=
  { author := 0, round := 1, qc := QC.genesis, tc := none, payload := [],
    signature := 0 }

def chain2 : Block :=
  { author := 0, round := 2, qc := { hash := 1, round := 1, votes := [0] },
    tc := none, payload := [], signature := 0 }

def chain3 : Block :=
  { author := 0, round := 3, qc := { hash := 2, round := 2, votes := [0] },
    tc := none, payload := [], signature := 0 }

/-- A block authored by replica 1, who is not the leader of its round under
`wEnv` (replica 0 leads every round there). -/
def badBlock : Block :=
  { author := 1, round := 1, qc := QC.genesis, tc := none, payload := [],
    signature := 0 }

/-- A round-consistent block carrying a timeout certificate for round 5
together with a QC whose round (100) exceeds the TC's round. -/
def tcBlock : Block :=
  { author := 0, round := 6, qc := { hash := 0, round := 100, votes := [0] },
    tc := some { round := 5, votes := [0] }, payload := [], signature := 0 }

/-- A concrete environment: replica 0 leads every round, the mempool is
always ready, every signature and certificate verifies, digests are block
rounds, and every block's ancestors resolve to `(chain0, chain1, chain2)`. -/
def wEnv : Env :=
  { name := 0, leader := fun _ => 0, mempoolReady := fun _ => true,
    getPayload := [],
    getAncestors := fun _ => Except.ok (some (chain0, chain1, chain2)),
    sigVerify := fun _ => true, qcVerify := fun _ => true,
    tcVerify := fun _ => true, digest := fun b => b.round,
    voteSig := fun _ _ => 0, blockSig := fun _ => 0,
    addVote := fun agg v => (v :: agg, Except.ok none),
    aggCleanup := fun agg _ => agg }

lemma voteRounds_append (t : Bool) (a b : List Event) :
    voteRounds t (a ++ b) = voteRounds t a ++ voteRounds t b := by
  induction a with
  | nil => simp [voteRounds]
  | cons ev rest ih =>
    simp only [List.cons_append, voteRounds]
    cases hv : voteOf ev with
    | none => exact ih
    | some v =>
      by_cases h : v.timeoutFlag = t
      · simp [h, ih]
      · simp [h, ih]

lemma commitsOf_append (a b : List Event) :
    commitsOf (a ++ b) = commitsOf a ++ commitsOf b := by
  simp [commitsOf]

lemma roundAdvance_fst (e : Env) (s : CoreState) (p : Nat) :
    (roundAdvance e s p).1 =
      if s.round < p then
        { s with round := p, aggregator := e.aggCleanup s.aggregator p }
      else s := by
  unfold roundAdvance; split <;> rfl

lemma roundAdvance_snd (e : Env) (s : CoreState) (p : Nat) :
    (roundAdvance e s p).2 =
      if s.round < p then
        [Event.TimerCancel s.round, Event.RoundUpdate p,
         Event.AggregatorCleanup p, Event.TimerSchedule p]
      else [] := by
  unfold roundAdvance; split <;> rfl

lemma updateHighestQC_fields (s : CoreState) (qc : QC) :
    (updateHighestQC s qc).round = s.round ∧
    (updateHighestQC s qc).last_voted_round = s.last_voted_round ∧
    (updateHighestQC s qc).preferred_round = s.preferred_round ∧
    (updateHighestQC s qc).store = s.store ∧
    (updateHighestQC s qc).aggregator = s.aggregator ∧
    (updateHighestQC s qc).highest_qc =
      (if qc.round > s.highest_qc.round then qc else s.highest_qc) := by
  unfold updateHighestQC; split <;> simp_all

lemma tryVote_fst (e : Env) (s : CoreState) (b b1 b2 : Block) :
    (tryVote e s b b1 b2).1 =
      if b2.round ≥ s.preferred_round ∧ b.round > s.last_voted_round then
        { s with preferred_round := max s.preferred_round b1.round,
                 last_voted_round := b.round }
      else s := by
  unfold tryVote; split <;> rfl

lemma tryVote_snd (e : Env) (s : CoreState) (b b1 b2 : Block) :
    (tryVote e s b b1 b2).2 =
      if b2.round ≥ s.preferred_round ∧ b.round > s.last_voted_round then
        [if e.leader (s.round + 1) = e.name then Event.VoteLoopback (mkBlockVote e b)
         else Event.VoteNet (mkBlockVote e b) (e.leader (s.round + 1))]
      else [] := by
  unfold tryVote; split <;> rfl

lemma store_block_fst (e : Env) (s : CoreState) (b : Block) :
    (store_block e s b).1 = { s with store := (e.digest b, b) :: s.store } := rfl

lemma store_block_snd (e : Env) (s : CoreState) (b : Block) :
    (store_block e s b).2 = [Event.StoreWrite (e.digest b)] := rfl

lemma roundAdvance_pr (e : Env) (s : CoreState) (p : Nat) :
    (roundAdvance e s p).1.preferred_round = s.preferred_round := by
  rw [roundAdvance_fst]; split <;> rfl

lemma roundAdvance_lvr (e : Env) (s : CoreState) (p : Nat) :
    (roundAdvance e s p).1.last_voted_round = s.last_voted_round := by
  rw [roundAdvance_fst]; split <;> rfl

lemma roundAdvance_hq (e : Env) (s : CoreState) (p : Nat) :
    (roundAdvance e s p).1.highest_qc = s.highest_qc := by
  rw [roundAdvance_fst]; split <;> rfl

lemma roundAdvance_store (e : Env) (s : CoreState) (p : Nat) :
    (roundAdvance e s p).1.store = s.store := by
  rw [roundAdvance_fst]; split <;> rfl

lemma roundAdvance_round (e : Env) (s : CoreState) (p : Nat) :
    (roundAdvance e s p).1.round = if s.round < p then p else s.round := by
  rw [roundAdvance_fst]; split <;> simp_all

lemma updateHighestQC_pr (s : CoreState) (qc : QC) :
    (updateHighestQC s qc).preferred_round = s.preferred_round := by
  unfold updateHighestQC; split <;> rfl

lemma updateHighestQC_lvr (s : CoreState) (qc : QC) :
    (updateHighestQC s qc).last_voted_round = s.last_voted_round := by
  unfold updateHighestQC; split <;> rfl

lemma updateHighestQC_round (s : CoreState) (qc : QC) :
    (updateHighestQC s qc).round = s.round := by
  unfold updateHighestQC; split <;> rfl

lemma updateHighestQC_store (s : CoreState) (qc : QC) :
    (updateHighestQC s qc).store = s.store := by
  unfold updateHighestQC; split <;> rfl

lemma tryVote_round (e : Env) (s : CoreState) (b b1 b2 : Block) :
    (tryVote e s b b1 b2).1.round = s.round := by
  rw [tryVote_fst]; split <;> rfl

lemma tryVote_hq (e : Env) (s : CoreState) (b b1 b2 : Block) :
    (tryVote e s b b1 b2).1.highest_qc = s.highest_qc := by
  rw [tryVote_fst]; split <;> rfl

lemma tryVote_store (e : Env) (s : CoreState) (b b1 b2 : Block) :
    (tryVote e s b b1 b2).1.store = s.store := by
  rw [tryVote_fst]; split <;> rfl

lemma process_block_not_ready (e : Env) (s : CoreState) (b : Block)
    (h : e.mempoolReady b.payload = false) :
    process_block e s b = (s, [], none) := by
  unfold process_block; rw [h]; rfl

lemma process_block_anc_error (e : Env) (s : CoreState) (b : Block) (u : Unit)
    (hready : e.mempoolReady b.payload = true)
    (hanc : e.getAncestors b = Except.error u) :
    process_block e s b = (s, [], some ConsensusError.SyncError) := by
  unfold process_block; rw [hready, hanc]; rfl

lemma process_block_anc_none (e : Env) (s : CoreState) (b : Block)
    (hready : e.mempoolReady b.payload = true)
    (hanc : e.getAncestors b = Except.ok none) :
    process_block e s b = (s, [], none) := by
  unfold process_block; rw [hready, hanc]; rfl

/-- The unfolded success path of `process_block` once the payload is ready
and the three ancestors resolve. -/
lemma process_block_eq (e : Env) (s : CoreState) (b b0 b1 b2 : Block)
    (hready : e.mempoolReady b.payload = true)
    (hanc : e.getAncestors b = Except.ok (some (b0, b1, b2))) :
    process_block e s b =
      ((tryVote e
          (updateHighestQC (roundAdvance e (store_block e s b).1 (possibleNewRound b)).1 b.qc)
          b b1 b2).1,
       (store_block e s b).2
         ++ (roundAdvance e (store_block e s b).1 (possibleNewRound b)).2
         ++ commitEvents b0 b1 b2 b
         ++ (tryVote e
              (updateHighestQC (roundAdvance e (store_block e s b).1 (possibleNewRound b)).1 b.qc)
              b b1 b2).2,
       none) := by
  unfold process_block; rw [hready, hanc]; rfl

lemma process_block_err (e : Env) (s : CoreState) (b : Block) :
    (process_block e s b).2.2 = none ∨
    (process_block e s b).2.2 = some ConsensusError.SyncError := by
  unfold process_block
  split
  · simp
  · split <;> simp

/-- Case analysis: `handle_propose` either drops a stale block, rejects on one of the five
validation checks, or passes an on-time, round-consistent block through to
`process_block`. -/
lemma handle_propose_split (e : Env) (s : CoreState) (b : Block) :
    (s.round < b.round ∧ roundConsistentB b = true ∧
       handle_propose e s b = process_block e s b) ∨
    (b.round ≤ s.round ∧ handle_propose e s b = (s, [], none)) ∨
    (s.round < b.round ∧
       ∃ err, handle_propose e s b = (s, [], some err) ∧
         isValidationError err = true) := by
  unfold handle_propose
  by_cases h1 : b.round ≤ s.round
  · exact Or.inr (Or.inl ⟨h1, by rw [if_pos h1]⟩)
  rw [if_neg h1]
  by_cases h2 : roundConsistentB b = false
  · exact Or.inr (Or.inr ⟨Nat.lt_of_not_le h1,
      ConsensusError.MalformedBlock (e.digest b), by rw [if_pos h2], rfl⟩)
  rw [if_neg h2]
  by_cases h3 : b.author ≠ e.leader b.round
  · exact Or.inr (Or.inr ⟨Nat.lt_of_not_le h1,
      ConsensusError.WrongLeader (e.digest b) b.author b.round, by rw [if_pos h3], rfl⟩)
  rw [if_neg h3]
  by_cases h4 : e.sigVerify b = false
  · exact Or.inr (Or.inr ⟨Nat.lt_of_not_le h1,
      ConsensusError.InvalidSignature, by rw [if_pos h4], rfl⟩)
  rw [if_neg h4]
  by_cases h5 : b.qc ≠ QC.genesis ∧ e.qcVerify b.qc = false
  · exact Or.inr (Or.inr ⟨Nat.lt_of_not_le h1,
      ConsensusError.InvalidQC, by rw [if_pos h5], rfl⟩)
  rw [if_neg h5]
  cases htc : b.tc with
  | none =>
    exact Or.inl ⟨Nat.lt_of_not_le h1, eq_true_of_ne_false h2, rfl⟩
  | some tc =>
    by_cases h6 : e.tcVerify tc = false
    · exact Or.inr (Or.inr ⟨Nat.lt_of_not_le h1,
        ConsensusError.InvalidTC, by simp [h6], rfl⟩)
    · exact Or.inl ⟨Nat.lt_of_not_le h1, eq_true_of_ne_false h2, by simp [h6]⟩

lemma possibleNewRound_eq (b : Block) (h : roundConsistentB b = true) :
    possibleNewRound b = b.round := by
  cases htc : b.tc with
  | none =>
    simp [roundConsistentB, htc] at h
    simp [possibleNewRound, htc, h]
  | some tc =>
    simp [roundConsistentB, htc] at h
    simp [possibleNewRound, htc, h]

lemma voteRounds_roundAdvance (t : Bool) (e : Env) (s : CoreState) (p : Nat) :
    voteRounds t (roundAdvance e s p).2 = [] := by
  rw [roundAdvance_snd]; split <;> simp [voteRounds, voteOf]

lemma voteRounds_commitEvents (t : Bool) (b0 b1 b2 b : Block) :
    voteRounds t (commitEvents b0 b1 b2 b) = [] := by
  unfold commitEvents; split <;> simp [voteRounds, voteOf]

lemma voteRounds_tryVote_true (e : Env) (s : CoreState) (b b1 b2 : Block) :
    voteRounds true (tryVote e s b b1 b2).2 = [] := by
  rw [tryVote_snd]
  split
  · split <;> simp [voteRounds, voteOf, mkBlockVote]
  · simp [voteRounds]

lemma voteRounds_tryVote_false (e : Env) (s : CoreState) (b b1 b2 : Block) :
    voteRounds false (tryVote e s b b1 b2).2 =
      if b2.round ≥ s.preferred_round ∧ b.round > s.last_voted_round then [b.round]
      else [] := by
  rw [tryVote_snd]
  split
  · split <;> simp [voteRounds, voteOf, mkBlockVote]
  · simp [voteRounds]

lemma commitsOf_roundAdvance (e : Env) (s : CoreState) (p : Nat) :
    commitsOf (roundAdvance e s p).2 = [] := by
  rw [roundAdvance_snd]; split <;> simp [commitsOf]

lemma commitsOf_tryVote (e : Env) (s : CoreState) (b b1 b2 : Block) :
    commitsOf (tryVote e s b b1 b2).2 = [] := by
  rw [tryVote_snd]
  split
  · split <;> simp [commitsOf]
  · simp [commitsOf]

lemma commitsOf_commitEvents (b0 b1 b2 b : Block) :
    commitsOf (commitEvents b0 b1 b2 b) =
      if b0.round + 1 = b1.round ∧ b1.round + 1 = b2.round ∧ b2.round + 1 = b.round
      then [b0] else [] := by
  unfold commitEvents; split <;> simp [commitsOf]

/-- Field-level description of the state after a successful `process_block`
(payload ready, ancestors resolved). -/
lemma process_block_success_fields (e : Env) (s : CoreState) (b b0 b1 b2 : Block)
    (hready : e.mempoolReady b.payload = true)
    (hanc : e.getAncestors b = Except.ok (some (b0, b1, b2))) :
    (process_block e s b).1.round =
      (if s.round < possibleNewRound b then possibleNewRound b else s.round) ∧
    (process_block e s b).1.highest_qc =
      (if b.qc.round > s.highest_qc.round then b.qc else s.highest_qc) ∧
    (process_block e s b).1.last_voted_round =
      (if b2.round ≥ s.preferred_round ∧ b.round > s.last_voted_round then b.round
       else s.last_voted_round) ∧
    (process_block e s b).1.preferred_round =
      (if b2.round ≥ s.preferred_round ∧ b.round > s.last_voted_round then
         max s.preferred_round b1.round
       else s.preferred_round) ∧
    (process_block e s b).1.store = (e.digest b, b) :: s.store := by
  rw [process_block_eq e s b b0 b1 b2 hready hanc]
  rw [tryVote_fst]
  unfold store_block
  rw [roundAdvance_fst]
  unfold updateHighestQC
  split <;> split <;> split <;> simp_all

lemma process_block_mono (e : Env) (s : CoreState) (b : Block) :
    s.round ≤ (process_block e s b).1.round ∧
    s.preferred_round ≤ (process_block e s b).1.preferred_round ∧
    s.last_voted_round ≤ (process_block e s b).1.last_voted_round := by
  by_cases hready : e.mempoolReady b.payload = false
  · rw [process_block_not_ready e s b hready]; simp
  rw [Bool.not_eq_false] at hready
  cases hanc : e.getAncestors b with
  | error u => rw [process_block_anc_error e s b u hready hanc]; simp
  | ok o =>
    cases o with
    | none => rw [process_block_anc_none e s b hready hanc]; simp
    | some anc =>
      obtain ⟨b0, b1, b2⟩ := anc
      obtain ⟨h1, _, h3, h4, _⟩ :=
        process_block_success_fields e s b b0 b1 b2 hready hanc
      refine ⟨?_, ?_, ?_⟩
      · rw [h1]; split <;> omega
      · rw [h4]; split <;> simp [Nat.le_max_left]
      · rw [h3]; split <;> omega

lemma process_block_votes (e : Env) (s : CoreState) (b : Block) :
    voteRounds true (process_block e s b).2.1 = [] ∧
    (voteRounds false (process_block e s b).2.1 = [] ∨
      ∃ x, voteRounds false (process_block e s b).2.1 = [x] ∧
        s.last_voted_round < x ∧ x ≤ (process_block e s b).1.last_voted_round) := by
  by_cases hready : e.mempoolReady b.payload = false
  · rw [process_block_not_ready e s b hready]; simp [voteRounds]
  rw [Bool.not_eq_false] at hready
  cases hanc : e.getAncestors b with
  | error u => rw [process_block_anc_error e s b u hready hanc]; simp [voteRounds]
  | ok o =>
    cases o with
    | none => rw [process_block_anc_none e s b hready hanc]; simp [voteRounds]
    | some anc =>
      obtain ⟨b0, b1, b2⟩ := anc
      constructor
      · rw [process_block_eq e s b b0 b1 b2 hready hanc]
        simp only [voteRounds_append, voteRounds_roundAdvance,
          voteRounds_commitEvents, voteRounds_tryVote_true]
        simp [store_block, voteRounds, voteOf]
      · rw [process_block_eq e s b b0 b1 b2 hready hanc]
        simp only [store_block_fst, store_block_snd, voteRounds_append,
          voteRounds_roundAdvance, voteRounds_commitEvents,
          voteRounds_tryVote_false, tryVote_fst, updateHighestQC_pr,
          updateHighestQC_lvr, roundAdvance_pr, roundAdvance_lvr]
        by_cases hv : b2.round ≥ s.preferred_round ∧ b.round > s.last_voted_round
        · refine Or.inr ⟨b.round, ?_, hv.2, ?_⟩
          · simp [hv, voteRounds, voteOf]
          · simp [hv]
        · refine Or.inl ?_
          simp [hv, voteRounds, voteOf]

/-- Effects of `make_timeout`: it increments the round, emits exactly one timeout-vote (at
the new round) and no block-vote, and commits nothing. -/
lemma make_timeout_effects (e : Env) (s : CoreState) :
    (make_timeout e s).1 = { s with round := s.round + 1 } ∧
    voteRounds false (make_timeout e s).2 = [] ∧
    voteRounds true (make_timeout e s).2 = [s.round + 1] ∧
    commitsOf (make_timeout e s).2 = [] := by
  unfold make_timeout
  refine ⟨rfl, ?_, ?_, ?_⟩ <;>
    (split <;> simp [voteRounds, voteOf, mkTimeoutVote, commitsOf])

/-- Effects of `handle_vote`: it touches only the aggregator; it emits no vote events and
no commits (on quorum it emits block messages via `make_block`). -/
lemma handle_vote_effects (e : Env) (s : CoreState) (v : Vote) :
    (handle_vote e s v).1.round = s.round ∧
    (handle_vote e s v).1.last_voted_round = s.last_voted_round ∧
    (handle_vote e s v).1.preferred_round = s.preferred_round ∧
    (handle_vote e s v).1.highest_qc = s.highest_qc ∧
    (∀ t, voteRounds t (handle_vote e s v).2.1 = []) ∧
    commitsOf (handle_vote e s v).2.1 = [] := by
  simp only [handle_vote, make_block]
  split
  · simp [voteRounds, commitsOf]
  · cases hr : (e.addVote s.aggregator v).2 with
    | error u => simp [hr, voteRounds, commitsOf]
    | ok o =>
      cases o with
      | none => simp [hr, voteRounds, commitsOf]
      | some q =>
        simp only [hr]
        split
        · split <;> simp [voteRounds, voteOf, commitsOf]
        · simp [voteRounds, commitsOf]

/-- Effects of `handle_sync_request`: it never changes the state, never votes, never
commits. -/
lemma handle_sync_request_effects (e : Env) (s : CoreState) (d p : Nat) :
    (handle_sync_request e s d p).1 = s ∧
    (∀ t, voteRounds t (handle_sync_request e s d p).2.1 = []) ∧
    commitsOf (handle_sync_request e s d p).2.1 = [] := by
  unfold handle_sync_request
  cases storeRead s.store d <;> simp [voteRounds, voteOf, commitsOf]

/-- Every commit emitted by `process_block` is the oldest block of a
resolved ancestor chain with consecutive rounds. -/
lemma process_block_commits (e : Env) (s : CoreState) (b : Block) :
    ∀ c ∈ commitsOf (process_block e s b).2.1, ∃ b0 b1 b2,
      e.getAncestors b = Except.ok (some (b0, b1, b2)) ∧ c = b0 ∧
      b0.round + 1 = b1.round ∧ b1.round + 1 = b2.round ∧
      b2.round + 1 = b.round := by
  by_cases hready : e.mempoolReady b.payload = false
  · rw [process_block_not_ready e s b hready]; simp [commitsOf]
  rw [Bool.not_eq_false] at hready
  cases hanc : e.getAncestors b with
  | error u => rw [process_block_anc_error e s b u hready hanc]; simp [commitsOf]
  | ok o =>
    cases o with
    | none => rw [process_block_anc_none e s b hready hanc]; simp [commitsOf]
    | some anc =>
      obtain ⟨b0, b1, b2⟩ := anc
      rw [process_block_eq e s b b0 b1 b2 hready hanc]
      simp only [store_block_snd, commitsOf_append, commitsOf_roundAdvance,
        commitsOf_tryVote, commitsOf_commitEvents]
      intro c hc
      simp only [commitsOf, List.filterMap, List.nil_append, List.append_nil] at hc
      by_cases hch : b0.round + 1 = b1.round ∧ b1.round + 1 = b2.round ∧
          b2.round + 1 = b.round
      · rw [if_pos hch] at hc
        simp at hc
        exact ⟨b0, b1, b2, rfl, hc, hch.1, hch.2.1, hch.2.2⟩
      · rw [if_neg hch] at hc
        simp at hc

/-- The exact list of commits of a successful `process_block`. -/
lemma process_block_commits_eq (e : Env) (s : CoreState) (b b0 b1 b2 : Block)
    (hready : e.mempoolReady b.payload = true)
    (hanc : e.getAncestors b = Except.ok (some (b0, b1, b2))) :
    commitsOf (process_block e s b).2.1 =
      if b0.round + 1 = b1.round ∧ b1.round + 1 = b2.round ∧ b2.round + 1 = b.round
      then [b0] else [] := by
  rw [process_block_eq e s b b0 b1 b2 hready hanc]
  simp only [store_block_snd, commitsOf_append, commitsOf_roundAdvance,
    commitsOf_tryVote, commitsOf_commitEvents]
  simp [commitsOf]

/-- Dichotomy: `handle_propose` either behaves exactly as `process_block` (for a fresh
valid block) or leaves the state unchanged and emits nothing. -/
lemma handle_propose_effects (e : Env) (s : CoreState) (b : Block) :
    handle_propose e s b = process_block e s b ∨
    ((handle_propose e s b).1 = s ∧ (handle_propose e s b).2.1 = []) := by
  rcases handle_propose_split e s b with ⟨_, _, h⟩ | ⟨_, h⟩ | ⟨_, err, h, _⟩
  · exact Or.inl h
  · exact Or.inr (by rw [h]; exact ⟨rfl, rfl⟩)
  · exact Or.inr (by rw [h]; exact ⟨rfl, rfl⟩)

/-- Per-step monotonicity of `round`, `preferred_round`,
`last_voted_round`. -/
lemma step_mono (e : Env) (s : CoreState) (i : Input) :
    s.round ≤ (step e s i).1.round ∧
    s.preferred_round ≤ (step e s i).1.preferred_round ∧
    s.last_voted_round ≤ (step e s i).1.last_voted_round := by
  cases i with
  | Propose b =>
    rcases handle_propose_effects e s b with h | ⟨h, _⟩
    · simp only [step, h]; exact process_block_mono e s b
    · simp only [step, h]; exact ⟨le_refl _, le_refl _, le_refl _⟩
  | VoteMsg v =>
    obtain ⟨h1, h2, h3, _, _, _⟩ := handle_vote_effects e s v
    simp only [step, h1, h2, h3]
    exact ⟨le_refl _, le_refl _, le_refl _⟩
  | LoopBack b => exact process_block_mono e s b
  | SyncRequest d p =>
    obtain ⟨h1, _, _⟩ := handle_sync_request_effects e s d p
    simp only [step, h1]
    exact ⟨le_refl _, le_refl _, le_refl _⟩
  | TimerFire =>
    obtain ⟨h1, _, _, _⟩ := make_timeout_effects e s
    simp only [step, h1]
    exact ⟨Nat.le_succ _, le_refl _, le_refl _⟩

/-- Monotonicity over whole input sequences. -/
lemma runFrom_mono (e : Env) (inputs : List Input) : ∀ s : CoreState,
    s.round ≤ (runFrom e s inputs).1.round ∧
    s.preferred_round ≤ (runFrom e s inputs).1.preferred_round ∧
    s.last_voted_round ≤ (runFrom e s inputs).1.last_voted_round := by
  induction inputs with
  | nil => intro s; simp [runFrom]
  | cons i rest ih =>
    intro s
    have h1 := step_mono e s i
    have h2 := ih (step e s i).1
    simp only [runFrom]
    exact ⟨le_trans h1.1 h2.1, le_trans h1.2.1 h2.2.1, le_trans h1.2.2 h2.2.2⟩

/-- Per-step vote emissions: at most one block-vote, strictly above the
entry `last_voted_round` and at most the exit one; at most one timeout-vote,
strictly above the entry `round` and at most the exit one. -/
lemma step_votes (e : Env) (s : CoreState) (i : Input) :
    (voteRounds false (step e s i).2 = [] ∨
      ∃ x, voteRounds false (step e s i).2 = [x] ∧
        s.last_voted_round < x ∧ x ≤ (step e s i).1.last_voted_round) ∧
    (voteRounds true (step e s i).2 = [] ∨
      ∃ x, voteRounds true (step e s i).2 = [x] ∧
        s.round < x ∧ x ≤ (step e s i).1.round) := by
  cases i with
  | Propose b =>
    rcases handle_propose_effects e s b with h | ⟨h1, h2⟩
    · simp only [step, h]
      exact ⟨(process_block_votes e s b).2, Or.inl (process_block_votes e s b).1⟩
    · simp only [step, h2]
      simp [voteRounds]
  | VoteMsg v =>
    obtain ⟨_, _, _, _, hv, _⟩ := handle_vote_effects e s v
    simp only [step]
    exact ⟨Or.inl (hv false), Or.inl (hv true)⟩
  | LoopBack b =>
    exact ⟨(process_block_votes e s b).2, Or.inl (process_block_votes e s b).1⟩
  | SyncRequest d p =>
    obtain ⟨_, hv, _⟩ := handle_sync_request_effects e s d p
    simp only [step]
    exact ⟨Or.inl (hv false), Or.inl (hv true)⟩
  | TimerFire =>
    obtain ⟨h1, h2, h3, _⟩ := make_timeout_effects e s
    refine ⟨Or.inl h2, Or.inr ⟨s.round + 1, h3, Nat.lt_succ_self _, ?_⟩⟩
    simp only [step, h1]
    exact Nat.le_refl _

/-- Accumulated vote-round invariant over a run: every emitted block-vote
round lies strictly above the entry `last_voted_round` and at most the exit
one (and analogously for timeout-votes and `round`), and the emitted rounds
of each kind are strictly increasing in emission order. -/
lemma runFrom_votes (e : Env) (inputs : List Input) : ∀ s : CoreState,
    (∀ x ∈ voteRounds false (runFrom e s inputs).2,
       s.last_voted_round < x ∧ x ≤ (runFrom e s inputs).1.last_voted_round) ∧
    (∀ x ∈ voteRounds true (runFrom e s inputs).2,
       s.round < x ∧ x ≤ (runFrom e s inputs).1.round) ∧
    List.Pairwise (· < ·) (voteRounds false (runFrom e s inputs).2) ∧
    List.Pairwise (· < ·) (voteRounds true (runFrom e s inputs).2) := by
  induction inputs with
  | nil => intro s; simp [runFrom, voteRounds]
  | cons i rest ih =>
    intro s
    obtain ⟨hbf, hbt⟩ := step_votes e s i
    have hsm := step_mono e s i
    obtain ⟨rf, rt, pf, pt⟩ := ih (step e s i).1
    have hrm := runFrom_mono e rest (step e s i).1
    simp only [runFrom, voteRounds_append]
    refine ⟨?_, ?_, ?_, ?_⟩
    · intro x hx
      rcases List.mem_append.mp hx with hx | hx
      · rcases hbf with h0 | ⟨y, hy, hy1, hy2⟩
        · rw [h0] at hx; simp at hx
        · rw [hy] at hx
          have hxy : x = y := by simpa using hx
          subst hxy
          exact ⟨hy1, le_trans hy2 hrm.2.2⟩
      · obtain ⟨h1, h2⟩ := rf x hx
        exact ⟨lt_of_le_of_lt hsm.2.2 h1, h2⟩
    · intro x hx
      rcases List.mem_append.mp hx with hx | hx
      · rcases hbt with h0 | ⟨y, hy, hy1, hy2⟩
        · rw [h0] at hx; simp at hx
        · rw [hy] at hx
          have hxy : x = y := by simpa using hx
          subst hxy
          exact ⟨hy1, le_trans hy2 hrm.1⟩
      · obtain ⟨h1, h2⟩ := rt x hx
        exact ⟨lt_of_le_of_lt hsm.1 h1, h2⟩
    · rw [List.pairwise_append]
      refine ⟨?_, pf, ?_⟩
      · rcases hbf with h0 | ⟨y, hy, _, _⟩
        · rw [h0]; exact List.Pairwise.nil
        · rw [hy]; simp
      · intro a ha c hc
        rcases hbf with h0 | ⟨y, hy, hy1, hy2⟩
        · rw [h0] at ha; simp at ha
        · rw [hy] at ha
          have hay : a = y := by simpa using ha
          subst hay
          exact lt_of_le_of_lt hy2 (rf c hc).1
    · rw [List.pairwise_append]
      refine ⟨?_, pt, ?_⟩
      · rcases hbt with h0 | ⟨y, hy, _, _⟩
        · rw [h0]; exact List.Pairwise.nil
        · rw [hy]; simp
      · intro a ha c hc
        rcases hbt with h0 | ⟨y, hy, hy1, hy2⟩
        · rw [h0] at ha; simp at ha
        · rw [hy] at ha
          have hay : a = y := by simpa using ha
          subst hay
          exact lt_of_le_of_lt hy2 (rt c hc).1

/-- C1 (non-equivocation): over every input sequence processed from boot,
the rounds of the emitted block-votes are strictly increasing in emission
order (so no two block-votes share a round, and each block-vote's round
exceeds every previously emitted block-vote's round), and likewise the
rounds of the emitted timeout-votes are strictly increasing (so no two
timeout-votes share a round). -/
theorem non_equivocation (e : Env) (inputs : List Input) :
    List.Pairwise (· < ·) (voteRounds false (run e inputs).2) ∧
    List.Pairwise (· < ·) (voteRounds true (run e inputs).2) := by
  obtain ⟨_, _, pf, pt⟩ := runFrom_votes e inputs initState
  exact ⟨pf, pt⟩

/-- Every commit emitted by any single event-loop step is the oldest block
of a resolved ancestor chain of four consecutive-round blocks. -/
lemma step_commits (e : Env) (s : CoreState) (i : Input) :
    ∀ c ∈ commitsOf (step e s i).2, ∃ a a0 a1 a2,
      e.getAncestors a = Except.ok (some (a0, a1, a2)) ∧ c = a0 ∧
      a0.round + 1 = a1.round ∧ a1.round + 1 = a2.round ∧
      a2.round + 1 = a.round := by
  cases i with
  | Propose b =>
    rcases handle_propose_effects e s b with h | ⟨_, h⟩
    · simp only [step, h]
      intro c hc
      obtain ⟨a0, a1, a2, h1, h2, h3, h4, h5⟩ := process_block_commits e s b c hc
      exact ⟨b, a0, a1, a2, h1, h2, h3, h4, h5⟩
    · simp only [step, h]
      simp [commitsOf]
  | VoteMsg v =>
    obtain ⟨_, _, _, _, _, hcm⟩ := handle_vote_effects e s v
    simp only [step, hcm]
    simp
  | LoopBack b =>
    simp only [step]
    intro c hc
    obtain ⟨a0, a1, a2, h1, h2, h3, h4, h5⟩ := process_block_commits e s b c hc
    exact ⟨b, a0, a1, a2, h1, h2, h3, h4, h5⟩
  | SyncRequest d p =>
    obtain ⟨_, _, hcm⟩ := handle_sync_request_effects e s d p
    simp only [step, hcm]
    simp
  | TimerFire =>
    obtain ⟨_, _, _, hcm⟩ := make_timeout_effects e s
    simp only [step, hcm]
    simp

/-- C2 (commit rule, 3-chain): in `process_block` on a block `b` with
resolved ancestors `(b0, b1, b2)`, `b0` is sent on the commit channel iff
the four blocks have consecutive rounds (and it is the only commit); and at
any step on any input, every block emitted on the commit channel is the
oldest of a resolved chain of four consecutive-round blocks. -/
theorem commit_rule (e : Env) (s s2 : CoreState) (b b0 b1 b2 : Block)
    (i : Input) (c : Block)
    (hready : e.mempoolReady b.payload = true)
    (hanc : e.getAncestors b = Except.ok (some (b0, b1, b2)))
    (hc : c ∈ commitsOf (step e s2 i).2) :
    commitsOf (process_block e s b).2.1 =
      (if b0.round + 1 = b1.round ∧ b1.round + 1 = b2.round ∧
          b2.round + 1 = b.round then [b0] else []) ∧
    ∃ a a0 a1 a2, e.getAncestors a = Except.ok (some (a0, a1, a2)) ∧ c = a0 ∧
      a0.round + 1 = a1.round ∧ a1.round + 1 = a2.round ∧
      a2.round + 1 = a.round :=
  ⟨process_block_commits_eq e s b b0 b1 b2 hready hanc, step_commits e s2 i c hc⟩

/-- Witness for C2 at a concrete chain: delivering `chain3` from boot
commits `chain0` (and nothing else). -/
theorem commit_rule_witness :
    (wEnv.mempoolReady chain3.payload = true ∧
     wEnv.getAncestors chain3 = Except.ok (some (chain0, chain1, chain2)) ∧
     chain0 ∈ commitsOf (step wEnv initState (Input.LoopBack chain3)).2) ∧
    commitsOf (process_block wEnv initState chain3).2.1 =
      (if chain0.round + 1 = chain1.round ∧ chain1.round + 1 = chain2.round ∧
          chain2.round + 1 = chain3.round then [chain0] else []) :=
  ⟨⟨rfl, rfl, by decide⟩,
   (commit_rule wEnv initState initState chain3 chain0 chain1 chain2
      (Input.LoopBack chain3) chain0 rfl rfl (by decide)).1⟩

/-- C4 (monotonicity): across every sequence of handler invocations, the
state variables `round`, `preferred_round` and `last_voted_round` never
decrease. -/
theorem monotonicity (e : Env) (s : CoreState) (inputs : List Input) :
    s.round ≤ (runFrom e s inputs).1.round ∧
    s.preferred_round ≤ (runFrom e s inputs).1.preferred_round ∧
    s.last_voted_round ≤ (runFrom e s inputs).1.last_voted_round :=
  runFrom_mono e inputs s

/-- C5 (durability before advancement): whenever `process_block` changes
the round, its event trace starts with the store write of the block's
digest, the round-update event occurs strictly later in the trace, and the
block is present in the resulting store. -/
theorem durability_before_advancement (e : Env) (s : CoreState) (b : Block)
    (hadv : (process_block e s b).1.round ≠ s.round) :
    ∃ tl, (process_block e s b).2.1 = Event.StoreWrite (e.digest b) :: tl ∧
      Event.RoundUpdate ((process_block e s b).1.round) ∈ tl ∧
      (e.digest b, b) ∈ (process_block e s b).1.store := by
  by_cases hready : e.mempoolReady b.payload = false
  · rw [process_block_not_ready e s b hready] at hadv; simp at hadv
  rw [Bool.not_eq_false] at hready
  cases hanc : e.getAncestors b with
  | error u =>
    rw [process_block_anc_error e s b u hready hanc] at hadv; simp at hadv
  | ok o =>
    cases o with
    | none =>
      rw [process_block_anc_none e s b hready hanc] at hadv; simp at hadv
    | some anc =>
      obtain ⟨b0, b1, b2⟩ := anc
      obtain ⟨hround, _, _, _, hstore⟩ :=
        process_block_success_fields e s b b0 b1 b2 hready hanc
      by_cases hlt : s.round < possibleNewRound b
      case neg =>
        rw [hround, if_neg hlt] at hadv
        exact absurd rfl hadv
      case pos =>
        have hfr : (process_block e s b).1.round = possibleNewRound b := by
          rw [hround, if_pos hlt]
        have hsr : (store_block e s b).1.round = s.round := by
          rw [store_block_fst]
        refine ⟨(roundAdvance e (store_block e s b).1 (possibleNewRound b)).2
            ++ commitEvents b0 b1 b2 b
            ++ (tryVote e
                 (updateHighestQC
                   (roundAdvance e (store_block e s b).1 (possibleNewRound b)).1
                   b.qc) b b1 b2).2, ?_, ?_, ?_⟩
        · rw [process_block_eq e s b b0 b1 b2 hready hanc, store_block_snd]
          simp
        · rw [hfr, roundAdvance_snd, hsr, if_pos hlt]
          simp
        · rw [hstore]
          exact List.mem_cons_self _ _

/-- Witness for C5: `chain3` advances the round from boot, and its trace
starts with the store write. -/
theorem durability_before_advancement_witness :
    (process_block wEnv initState chain3).1.round ≠ initState.round ∧
    ∃ tl, (process_block wEnv initState chain3).2.1 =
        Event.StoreWrite (wEnv.digest chain3) :: tl ∧
      Event.RoundUpdate ((process_block wEnv initState chain3).1.round) ∈ tl ∧
      (wEnv.digest chain3, chain3) ∈ (process_block wEnv initState chain3).1.store :=
  ⟨by decide, durability_before_advancement wEnv initState chain3 (by decide)⟩

/-- C6 (pacemaker): on a timer fire at round `r` the core moves to round
`r + 1` and exactly: emits one signed timeout-vote for round `r + 1`,
delivered to the leader of round `r + 2` (loopback iff that leader is this
replica, else a network unicast), and schedules a fresh timer for the new
round; no other state component changes. -/
theorem pacemaker (e : Env) (s : CoreState) :
    make_timeout e s =
      ({ s with round := s.round + 1 },
       [(if e.leader (s.round + 2) = e.name
         then Event.VoteLoopback (mkTimeoutVote e (s.round + 1))
         else Event.VoteNet (mkTimeoutVote e (s.round + 1))
                (e.leader (s.round + 2))),
        Event.TimerSchedule (s.round + 1)]) ∧
    (mkTimeoutVote e (s.round + 1)).round = s.round + 1 ∧
    (mkTimeoutVote e (s.round + 1)).timeoutFlag = true :=
  ⟨rfl, rfl, rfl⟩

/-- C10 (sync-request frame): `handle_sync_request` returns the state
unchanged and never errors; its only effect is one `SyncReply` unicast to
the requester on a store hit, and nothing on a miss. -/
theorem sync_request_frame (e : Env) (s : CoreState) (d p : Nat) :
    handle_sync_request e s d p =
      (s,
       (match storeRead s.store d with
        | some b => [Event.SyncReply b p]
        | none => []),
       none) := by
  unfold handle_sync_request
  cases storeRead s.store d <;> rfl

lemma qc_lt_possible (b : Block) (hb : tcBoundB b = true) :
    b.qc.round < possibleNewRound b := by
  cases htc : b.tc with
  | none => simp [possibleNewRound, htc]
  | some tc =>
    simp [tcBoundB, htc] at hb
    simp [possibleNewRound, htc]
    omega

lemma possible_pos (b : Block) : 0 < possibleNewRound b := by
  unfold possibleNewRound
  cases b.tc <;> simp

/-- Preservation: `process_block` preserves the highest-QC invariant for blocks whose QC
round respects the TC bound. -/
lemma process_block_qcInv (e : Env) (s : CoreState) (b : Block)
    (hb : tcBoundB b = true) (hs : qcInv s) : qcInv (process_block e s b).1 := by
  by_cases hready : e.mempoolReady b.payload = false
  · rw [process_block_not_ready e s b hready]; exact hs
  rw [Bool.not_eq_false] at hready
  cases hanc : e.getAncestors b with
  | error u => rw [process_block_anc_error e s b u hready hanc]; exact hs
  | ok o =>
    cases o with
    | none => rw [process_block_anc_none e s b hready hanc]; exact hs
    | some anc =>
      obtain ⟨b0, b1, b2⟩ := anc
      obtain ⟨hround, hq, _, _, _⟩ :=
        process_block_success_fields e s b b0 b1 b2 hready hanc
      have h1 := qc_lt_possible b hb
      have h2 := possible_pos b
      obtain ⟨hs1, hs2⟩ := hs
      constructor
      · intro h0
        rw [hround] at h0
        split at h0 <;> omega
      · intro _
        rw [hround, hq]
        by_cases hc1 : s.round < possibleNewRound b
        · rw [if_pos hc1]
          by_cases hc2 : b.qc.round > s.highest_qc.round
          · rw [if_pos hc2]; omega
          · rw [if_neg hc2]
            rcases Nat.eq_zero_or_pos s.round with h0 | h0
            · have := hs1 h0; omega
            · have := hs2 h0; omega
        · rw [if_neg hc1]
          have hps : 0 < s.round := by omega
          by_cases hc2 : b.qc.round > s.highest_qc.round
          · rw [if_pos hc2]; omega
          · rw [if_neg hc2]
            have := hs2 hps; omega

/-- Every event-loop step preserves the highest-QC invariant when its input
satisfies the TC bound. -/
lemma step_qcInv (e : Env) (s : CoreState) (i : Input)
    (hi : inputTCBoundB i = true) (hs : qcInv s) : qcInv (step e s i).1 := by
  cases i with
  | Propose b =>
    rcases handle_propose_effects e s b with h | ⟨h, _⟩
    · simp only [step, h]
      exact process_block_qcInv e s b (by simpa [inputTCBoundB] using hi) hs
    · simp only [step, h]
      exact hs
  | VoteMsg v =>
    obtain ⟨h1, _, _, h4, _, _⟩ := handle_vote_effects e s v
    simp only [step]
    obtain ⟨ha, hb⟩ := hs
    exact ⟨fun h0 => by rw [h4]; exact ha (h1 ▸ h0),
           fun h0 => by rw [h4, h1]; exact hb (h1 ▸ h0)⟩
  | LoopBack b =>
    simp only [step]
    exact process_block_qcInv e s b (by simpa [inputTCBoundB] using hi) hs
  | SyncRequest d p =>
    obtain ⟨h1, _, _⟩ := handle_sync_request_effects e s d p
    simp only [step, h1]
    exact hs
  | TimerFire =>
    obtain ⟨h1, _, _, _⟩ := make_timeout_effects e s
    simp only [step, h1]
    obtain ⟨ha, hb⟩ := hs
    constructor
    · intro h0
      simp at h0
    · intro _
      show s.highest_qc.round < s.round + 1
      rcases Nat.eq_zero_or_pos s.round with h0 | h0
      · have := ha h0; omega
      · have := hb h0; omega

lemma runFrom_qcInv (e : Env) (inputs : List Input) : ∀ s : CoreState,
    (∀ i ∈ inputs, inputTCBoundB i = true) → qcInv s →
    qcInv (runFrom e s inputs).1 := by
  induction inputs with
  | nil => intro s _ hs; simpa [runFrom] using hs
  | cons i rest ih =>
    intro s hall hs
    simp only [runFrom]
    exact ih (step e s i).1 (fun j hj => hall j (List.mem_cons_of_mem _ hj))
      (step_qcInv e s i (hall i (List.mem_cons_self _ _)) hs)

/-- C3 counterexample: the claimed strict invariant
`highest_qc.round < round` fails at the boot state (both are 0), and it
also fails after a handler invocation: processing a round-consistent block
that carries a TC for round 5 together with a QC at round 100 moves the
core to round 6 while adopting the round-100 QC. -/
theorem qc_invariant_counterexample :
    ¬ (initState.highest_qc.round < initState.round) ∧
    ¬ ((run wEnv [Input.Propose tcBlock]).1.highest_qc.round <
       (run wEnv [Input.Propose tcBlock]).1.round) := by decide

/-- C3 amended: at boot `highest_qc.round = round = 0`; and over every
input sequence whose blocks respect the TC bound (`qc.round ≤ tc.round`
whenever a TC is carried — true of certificates formed by honest quorums),
after every handler invocation `highest_qc.round < round` holds whenever
`round > 0`, and `highest_qc` is still the genesis-round QC when
`round = 0`. -/
theorem qc_invariant_amended (e : Env) (inputs : List Input)
    (h : ∀ i ∈ inputs, inputTCBoundB i = true) :
    qcInv (run e inputs).1 :=
  runFrom_qcInv e inputs initState h (by simp [qcInv, initState, QC.genesis])

/-- Witness for the amended C3 on a concrete run. -/
theorem qc_invariant_amended_witness :
    (∀ i ∈ [Input.Propose chain3, Input.TimerFire], inputTCBoundB i = true) ∧
    qcInv (run wEnv [Input.Propose chain3, Input.TimerFire]).1 :=
  ⟨by decide,
   qc_invariant_amended wEnv [Input.Propose chain3, Input.TimerFire] (by decide)⟩

/-- C7 (proposal idempotence): if delivering `Propose(b)` stored the block
(i.e. the block was delivered), then the core's round has reached
`b.round`, and delivering the same proposal a second time is a no-op: the
freshness check `b.round ≤ round` fires, the state is unchanged and no
event is emitted. -/
theorem proposal_idempotence (e : Env) (s : CoreState) (b : Block)
    (hdeliv : Event.StoreWrite (e.digest b) ∈ (handle_propose e s b).2.1) :
    b.round ≤ (handle_propose e s b).1.round ∧
    handle_propose e (handle_propose e s b).1 b =
      ((handle_propose e s b).1, [], none) := by
  rcases handle_propose_split e s b with ⟨hfresh, hrc, heq⟩ | ⟨_, heq⟩ | ⟨_, err, heq, _⟩
  case inr.inl => rw [heq] at hdeliv; simp at hdeliv
  case inr.inr => rw [heq] at hdeliv; simp at hdeliv
  case inl =>
    rw [heq] at hdeliv ⊢
    by_cases hready : e.mempoolReady b.payload = false
    · rw [process_block_not_ready e s b hready] at hdeliv; simp at hdeliv
    rw [Bool.not_eq_false] at hready
    cases hanc : e.getAncestors b with
    | error u =>
      rw [process_block_anc_error e s b u hready hanc] at hdeliv
      simp at hdeliv
    | ok o =>
      cases o with
      | none =>
        rw [process_block_anc_none e s b hready hanc] at hdeliv
        simp at hdeliv
      | some anc =>
        obtain ⟨b0, b1, b2⟩ := anc
        obtain ⟨hround, _, _, _, _⟩ :=
          process_block_success_fields e s b b0 b1 b2 hready hanc
        have hple : possibleNewRound b = b.round := possibleNewRound_eq b hrc
        have hfinal : (process_block e s b).1.round = b.round := by
          rw [hround, hple, if_pos (hple ▸ hfresh)]
        refine ⟨le_of_eq hfinal.symm, ?_⟩
        rcases handle_propose_split e (process_block e s b).1 b with
          ⟨hf2, _, _⟩ | ⟨_, heq2⟩ | ⟨hf2, _, _, _⟩
        · omega
        · rw [heq2]
        · omega

/-- Witness for C7: delivering `chain3` twice from boot. -/
theorem proposal_idempotence_witness :
    Event.StoreWrite (wEnv.digest chain3) ∈
      (handle_propose wEnv initState chain3).2.1 ∧
    (chain3.round ≤ (handle_propose wEnv initState chain3).1.round ∧
     handle_propose wEnv (handle_propose wEnv initState chain3).1 chain3 =
       ((handle_propose wEnv initState chain3).1, [], none)) :=
  ⟨by decide, proposal_idempotence wEnv initState chain3 (by decide)⟩

/-- C8 counterexample: a block from the wrong leader mutates the state when
delivered via LoopBack but is rejected without any effect when delivered as
a Propose, so the two delivery paths are not equivalent for arbitrary
same-content blocks. -/
theorem loopback_equivalence_counterexample :
    step wEnv initState (Input.LoopBack badBlock) ≠
    step wEnv initState (Input.Propose badBlock) := by decide

/-- C8 amended: for every block that passes `handle_propose`'s validation
(fresh round, consistent round arithmetic, authored by its round's leader,
valid signature, valid embedded QC and TC), delivery as a network proposal
and delivery via loopback produce identical state transitions, event
traces and results: `handle_propose` coincides with `process_block`. -/
theorem loopback_equivalence_amended (e : Env) (s : CoreState) (b : Block)
    (hfresh : s.round < b.round)
    (hrc : roundConsistentB b = true)
    (hleader : b.author = e.leader b.round)
    (hsig : e.sigVerify b = true)
    (hqc : b.qc = QC.genesis ∨ e.qcVerify b.qc = true)
    (htc : ∀ tc, b.tc = some tc → e.tcVerify tc = true) :
    handle_propose e s b = process_block e s b := by
  unfold handle_propose
  rw [if_neg (Nat.not_le.mpr hfresh)]
  rw [if_neg (by simp [hrc])]
  rw [if_neg (by simp [hleader])]
  rw [if_neg (by simp [hsig])]
  rw [if_neg (by rcases hqc with h | h <;> simp [h])]
  cases htcb : b.tc with
  | none => rfl
  | some tc => simp [htc tc htcb]

/-- Witness for the amended C8: `chain3` passes validation under `wEnv`. -/
theorem loopback_equivalence_amended_witness :
    (initState.round < chain3.round ∧ roundConsistentB chain3 = true ∧
     chain3.author = wEnv.leader chain3.round ∧ wEnv.sigVerify chain3 = true ∧
     wEnv.qcVerify chain3.qc = true) ∧
    handle_propose wEnv initState chain3 = process_block wEnv initState chain3 :=
  ⟨⟨by decide, by decide, rfl, rfl, rfl⟩,
   loopback_equivalence_amended wEnv initState chain3 (by decide) (by decide)
     rfl rfl (Or.inr rfl) (fun tc h => by simp [chain3] at h)⟩

/-- C9 (validation-failure atomicity): when `handle_propose` rejects a
block with one of the five validation errors (malformed round arithmetic,
wrong leader, invalid block signature, invalid embedded QC, invalid
embedded TC), or silently drops it as stale, the state is returned exactly
unchanged and no event is emitted. -/
theorem validation_failure_atomicity (e : Env) (s : CoreState) (b : Block)
    (h : (∃ err, (handle_propose e s b).2.2 = some err ∧
            isValidationError err = true) ∨
         b.round ≤ s.round) :
    (handle_propose e s b).1 = s ∧ (handle_propose e s b).2.1 = [] := by
  rcases handle_propose_split e s b with ⟨hfresh, _, heq⟩ | ⟨_, heq⟩ | ⟨_, err, heq, _⟩
  · rcases h with ⟨err, herr, hval⟩ | hstale
    · rw [heq] at herr
      rcases process_block_err e s b with h0 | h0 <;> rw [h0] at herr
      · cases herr
      · injection herr with hh
        subst hh
        simp [isValidationError] at hval
    · omega
  · rw [heq]; exact ⟨rfl, rfl⟩
  · rw [heq]; exact ⟨rfl, rfl⟩

/-- Witness for C9: `badBlock` is rejected as wrong-leader under `wEnv`
with no state change and no events. -/
theorem validation_failure_atomicity_witness :
    ((∃ err, (handle_propose wEnv initState badBlock).2.2 = some err ∧
        isValidationError err = true) ∨
      badBlock.round ≤ initState.round) ∧
    ((handle_propose wEnv initState badBlock).1 = initState ∧
     (handle_propose wEnv initState badBlock).2.1 = []) :=
  ⟨Or.inl ⟨ConsensusError.WrongLeader 1 1 1, by decide, by decide⟩,
   validation_failure_atomicity wEnv initState badBlock
     (Or.inl ⟨ConsensusError.WrongLeader 1 1 1, by decide, by decide⟩)⟩

end Jolteon
